import Mathlib

/-!
Verification of the DRHP downloader pipeline (`src/download_drhp.py`).

The program is a single-pass pipeline: load a processed-URL set from a JSON
state file, fetch a listing page, extract PDF candidate links by an
extension/keyword heuristic, download and upload each unseen candidate,
record successes, and save the state file.  We embed the pure parts directly
(string predicates, candidate extraction, state-file codec) and model the
effectful main routine as a deterministic function of success oracles for
the network and upload operations, producing an event trace.
-/

namespace DrhpDownloader

/-- Character-list prefix test (kernel-reducible structural recursion),
backing the embeddings of Python's string operations below. -/
def isPrefixL : List Char → List Char → Bool
  | [], _ => true
  | _ :: _, [] => false
  | p :: ps, c :: cs => p == c && isPrefixL ps cs

/-- Character-list substring occurrence test: does `pat` occur contiguously
in `s`?  Models Python's `pat in s`. -/
def containsL : List Char → List Char → Bool
  | [], pat => isPrefixL pat []
  | c :: rest, pat => isPrefixL pat (c :: rest) || containsL rest pat

/-- Lowercasing, modelling Python's `str.lower` (ASCII range, which covers
every string the program compares). -/
def strToLower (s : String) : String :=
  ⟨s.data.map Char.toLower⟩

/-- Substring test on strings: Python's `pat in s`. -/
def containsSub (s pat : String) : Bool :=
  containsL s.data pat.data

/-- Suffix test on strings: Python's `s.endswith(pat)`. -/
def strEndsWith (s pat : String) : Bool :=
  isPrefixL pat.data.reverse s.data.reverse

/-- `KEYWORDS` constant (src/download_drhp.py line 19). -/
def KEYWORDS : List String :=
  ["draft", "drhp", "red-herring", "red herring", "offer document"]

/-- `is_pdf_link` (lines 47-48).  Python's truthiness guard `href and ...`
is modelled by `href != ""`. -/
def is_pdf_link (href : String) : Bool :=
  href != "" && (strEndsWith (strToLower href) ".pdf" || containsSub (strToLower href) ".pdf?")

/-- `likely_drhp_text` (lines 50-51), with the same truthiness guard. -/
def likely_drhp_text (text : String) : Bool :=
  text != "" && KEYWORDS.any (fun k => containsSub (strToLower text) k)

/-- A hyperlink element of the listing page: the raw `href` attribute and the
visible anchor text (`a.get_text(" ", strip=True)`). -/
structure Anchor where
  href : String
  text : String
deriving DecidableEq

/-- Candidate extraction of `main` (lines 85-90).  `resolve` stands for
`urljoin SEBI_URL` (Python standard library); the loop keeps, in document
order, the resolved URL of every anchor passing both predicates, matching
keywords against `get_text(...) + " " + href`. -/
def extract_candidates (resolve : String → String) (anchors : List Anchor) : List String :=
  anchors.filterMap (fun a =>
    let full := resolve a.href
    if is_pdf_link full && likely_drhp_text (a.text ++ " " ++ a.href) then some full
    else none)

/-- The state file as `load_state`/`save_state` see it.  The JSON codec
(`json.load`/`json.dump`, Python standard library) is modelled abstractly:
the file is absent, or holds malformed bytes on which the parse raises, or
stores a serialized list of URL strings. -/
inductive FileContent
  | missing
  | corrupt
  | stored (xs : List String)
deriving DecidableEq

/-- `load_state` (lines 39-42): an absent file yields the empty set; a
present file is parsed (raising on malformed contents) and turned into a
set. -/
def load_state : FileContent → Except String (Finset String)
  | .missing => .ok ∅
  | .corrupt => .error "json parse error"
  | .stored xs => .ok xs.toFinset

/-- `save_state` (lines 44-45): dumps `list(state)`, fully overwriting the
file; the enumeration order of the Python set is immaterial, here the sorted
enumeration (any enumeration of the same set reloads identically, see the
round-trip theorem). -/
def save_state (state : Finset String) : FileContent :=
  .stored (state.sort (· ≤ ·))

/-- Observable events of a run, in order: listing-page fetch and its success,
download and upload attempts and successes per URL, the fixed `time.sleep(1)`
delay, and the logged per-item error. -/
inductive Event
  | fetchListing
  | fetchOk
  | downloadAttempt (url : String)
  | downloadOk (url : String)
  | uploadAttempt (url : String)
  | uploadOk (url : String)
  | sleep
  | errorLogged (url : String)
deriving DecidableEq

/-- Events of one `try` block iteration (lines 99-106): `download_file`, then
`upload_to_drive`, then `time.sleep(1)`; an exception in either step jumps to
the `except` handler which logs the error (so no sleep on failure).  The
oracles `dl` and `ul` give the success of download and upload per URL. -/
def stepEvents (dl ul : String → Bool) (url : String) : List Event :=
  if dl url then
    if ul url then
      [.downloadAttempt url, .downloadOk url, .uploadAttempt url, .uploadOk url, .sleep]
    else
      [.downloadAttempt url, .downloadOk url, .uploadAttempt url, .errorLogged url]
  else
    [.downloadAttempt url, .errorLogged url]

/-- Result of the per-candidate loop: final in-memory set, `new_count`, and
the event trace. -/
structure LoopResult where
  state : Finset String
  newCount : Nat
  events : List Event
deriving DecidableEq

/-- The per-candidate loop of `main` (lines 93-106): skip URLs already in the
set, otherwise attempt download then upload; on success of both, add the URL
to the set and increment `new_count` (then sleep); on exception, log and
continue with the next candidate. -/
def runLoop (dl ul : String → Bool) : List String → Finset String → LoopResult
  | [], st => ⟨st, 0, []⟩
  | url :: rest, st =>
    if url ∈ st then runLoop dl ul rest st
    else if dl url && ul url then
      let r := runLoop dl ul rest (insert url st)
      ⟨r.state, 1 + r.newCount, stepEvents dl ul url ++ r.events⟩
    else
      let r := runLoop dl ul rest st
      ⟨r.state, r.newCount, stepEvents dl ul url ++ r.events⟩

/-- Reasons `main` terminates with an uncaught exception. -/
inductive AbortReason
  | stateParse
  | listingFetch
  | configError
deriving DecidableEq

/-- Result of a whole run: event trace, the state file at the end, the
reported `new_count`, and the abort reason when an exception escaped. -/
structure MainResult where
  events : List Event
  file : FileContent
  newCount : Nat
  aborted : Option AbortReason
deriving DecidableEq

/-- `main` (lines 77-109) in source order: `load_state` (a parse error
escapes), `requests.get(SEBI_URL)` + `raise_for_status` (fatal on failure),
candidate extraction, `get_drive()` (fatal on missing or invalid
credentials), the per-candidate loop, `save_state`.  `fetchOk` is the success
of the listing fetch and `credsOk` the validity of the credential file. -/
def mainRun (resolve : String → String) (file : FileContent) (fetchOk : Bool)
    (anchors : List Anchor) (credsOk : Bool) (dl ul : String → Bool) : MainResult :=
  match load_state file with
  | .error _ => ⟨[], file, 0, some .stateParse⟩
  | .ok st0 =>
    if !fetchOk then ⟨[.fetchListing], file, 0, some .listingFetch⟩
    else
      let cands := extract_candidates resolve anchors
      if !credsOk then ⟨[.fetchListing, .fetchOk], file, 0, some .configError⟩
      else
        let r := runLoop dl ul cands st0
        ⟨[.fetchListing, .fetchOk] ++ r.events, save_state r.state, r.newCount, none⟩

/-- Recognizer for the fixed-delay event. -/
def isSleepEv : Event → Bool
  | .sleep => true
  | _ => false

/-- Recognizer for a successful upload event. -/
def isUploadOkEv : Event → Bool
  | .uploadOk _ => true
  | _ => false

/-- Number of fixed-delay waits in a trace. -/
def countSleep (evs : List Event) : Nat :=
  evs.countP (fun e => isSleepEv e)

/-- Number of successful uploads in a trace. -/
def countUploadOk (evs : List Event) : Nat :=
  evs.countP (fun e => isUploadOkEv e)

/-- Claim C2's extension predicate (a), written from the spec sentence: the
resolved URL, lowercased, ends with ".pdf" or contains ".pdf?". -/
def extPredSpec (u : String) : Bool :=
  strEndsWith (strToLower u) ".pdf" || containsSub (strToLower u) ".pdf?"

/-- Claim C2's keyword predicate (b) as literally stated: the concatenation
of the link's visible text and its raw href, lowercased, contains at least
one keyword. -/
def keywordPredClaim (a : Anchor) : Bool :=
  KEYWORDS.any (fun k => containsSub (strToLower (a.text ++ a.href)) k)

/-- Amended keyword predicate: the concatenation of the link's visible text,
a single space, and its raw href, lowercased, contains at least one
keyword. -/
def keywordPredAmended (a : Anchor) : Bool :=
  KEYWORDS.any (fun k => containsSub (strToLower (a.text ++ " " ++ a.href)) k)

/-- Candidate list characterized exactly as claim C2 states it (document
order, both predicates, keyword test on text concatenated directly with
href). -/
def candidates_claimC2 (resolve : String → String) (anchors : List Anchor) : List String :=
  anchors.filterMap (fun a =>
    if extPredSpec (resolve a.href) && keywordPredClaim a then some (resolve a.href)
    else none)

/-- Candidate list characterized as the amended claim states it (keyword
test on text, a single space, then href). -/
def candidates_amendedC2 (resolve : String → String) (anchors : List Anchor) : List String :=
  anchors.filterMap (fun a =>
    if extPredSpec (resolve a.href) && keywordPredAmended a then some (resolve a.href)
    else none)

/-- Oracle under which every download succeeds. -/
def dlAll : String → Bool := fun _ => true

/-- Oracle under which every upload succeeds. -/
def ulAll : String → Bool := fun _ => true

/-- Oracle under which downloading the URL "A" fails and every other
download succeeds. -/
def dlFailsA : String → Bool := fun u => u != "A"

/-! ### Unfolding equations for the per-candidate loop -/

lemma runLoop_nil (dl ul : String → Bool) (st : Finset String) :
    runLoop dl ul [] st = ⟨st, 0, []⟩ := rfl

lemma runLoop_cons_mem (dl ul : String → Bool) (url : String) (rest : List String)
    (st : Finset String) (h : url ∈ st) :
    runLoop dl ul (url :: rest) st = runLoop dl ul rest st := by
  simp [runLoop, h]

lemma runLoop_cons_ok (dl ul : String → Bool) (url : String) (rest : List String)
    (st : Finset String) (h : url ∉ st) (hok : (dl url && ul url) = true) :
    runLoop dl ul (url :: rest) st =
      ⟨(runLoop dl ul rest (insert url st)).state,
       1 + (runLoop dl ul rest (insert url st)).newCount,
       stepEvents dl ul url ++ (runLoop dl ul rest (insert url st)).events⟩ := by
  simp [runLoop, h, hok]

lemma runLoop_cons_fail (dl ul : String → Bool) (url : String) (rest : List String)
    (st : Finset String) (h : url ∉ st) (hok : (dl url && ul url) = false) :
    runLoop dl ul (url :: rest) st =
      ⟨(runLoop dl ul rest st).state,
       (runLoop dl ul rest st).newCount,
       stepEvents dl ul url ++ (runLoop dl ul rest st).events⟩ := by
  simp [runLoop, h, hok]

/-! ### Facts about one iteration's events -/

lemma downloadAttempt_mem_stepEvents (dl ul : String → Bool) (url a : String) :
    Event.downloadAttempt a ∈ stepEvents dl ul url ↔ a = url := by
  cases hdl : dl url <;> cases hul : ul url <;> simp [stepEvents, hdl, hul]

lemma uploadAttempt_mem_stepEvents (dl ul : String → Bool) (url a : String) :
    Event.uploadAttempt a ∈ stepEvents dl ul url ↔ (a = url ∧ dl url = true) := by
  cases hdl : dl url <;> cases hul : ul url <;> simp [stepEvents, hdl, hul]

lemma errorLogged_mem_stepEvents (dl ul : String → Bool) (url : String)
    (h : dl url = false ∨ ul url = false) :
    Event.errorLogged url ∈ stepEvents dl ul url := by
  cases hdl : dl url <;> cases hul : ul url <;> simp_all [stepEvents]

lemma countSleep_stepEvents (dl ul : String → Bool) (url : String) :
    countSleep (stepEvents dl ul url) = if dl url && ul url then 1 else 0 := by
  cases hdl : dl url <;> cases hul : ul url <;>
    simp [stepEvents, countSleep, isSleepEv, hdl, hul]

lemma countUploadOk_stepEvents (dl ul : String → Bool) (url : String) :
    countUploadOk (stepEvents dl ul url) = if dl url && ul url then 1 else 0 := by
  cases hdl : dl url <;> cases hul : ul url <;>
    simp [stepEvents, countUploadOk, isUploadOkEv, hdl, hul]

lemma countSleep_append (l r : List Event) :
    countSleep (l ++ r) = countSleep l + countSleep r := by
  simp [countSleep, List.countP_append]

lemma countUploadOk_append (l r : List Event) :
    countUploadOk (l ++ r) = countUploadOk l + countUploadOk r := by
  simp [countUploadOk, List.countP_append]

/-! ### Invariants of the loop -/

/-- Membership in the final in-memory set: a URL is there exactly when it
was loaded, or it is a candidate whose download and upload both succeed. -/
lemma runLoop_state_mem (dl ul : String → Bool) (cs : List String) (st : Finset String)
    (x : String) :
    x ∈ (runLoop dl ul cs st).state ↔
      x ∈ st ∨ (x ∈ cs ∧ dl x = true ∧ ul x = true) := by
  induction cs generalizing st with
  | nil => simp [runLoop_nil]
  | cons url rest ih =>
    by_cases hmem : url ∈ st
    · rw [runLoop_cons_mem dl ul url rest st hmem, ih]
      constructor
      · rintro (h | ⟨h1, h2, h3⟩)
        · exact Or.inl h
        · exact Or.inr ⟨List.mem_cons_of_mem _ h1, h2, h3⟩
      · rintro (h | ⟨h1, h2, h3⟩)
        · exact Or.inl h
        · rcases List.mem_cons.mp h1 with rfl | h1
          · exact Or.inl hmem
          · exact Or.inr ⟨h1, h2, h3⟩
    · cases hok : (dl url && ul url) with
      | true =>
        have hdu : dl url = true ∧ ul url = true := by
          constructor <;> [exact (Bool.and_eq_true_iff.mp hok).1;
            exact (Bool.and_eq_true_iff.mp hok).2]
        rw [runLoop_cons_ok dl ul url rest st hmem hok]
        dsimp only
        rw [ih]
        simp only [Finset.mem_insert, List.mem_cons]
        by_cases hx : x = url
        · subst hx; tauto
        · simp only [hx, false_or]
      | false =>
        have hnd : ¬(dl url = true ∧ ul url = true) := by
          rintro ⟨h1, h2⟩; simp [h1, h2] at hok
        rw [runLoop_cons_fail dl ul url rest st hmem hok]
        dsimp only
        rw [ih]
        simp only [List.mem_cons]
        by_cases hx : x = url
        · subst hx; tauto
        · simp only [hx, false_or]

/-- The loaded set is never shrunk by the loop. -/
lemma runLoop_subset (dl ul : String → Bool) (cs : List String) (st : Finset String) :
    st ⊆ (runLoop dl ul cs st).state := by
  intro x hx
  rw [runLoop_state_mem]
  exact Or.inl hx

/-- Each increment of `new_count` coincides with inserting a fresh URL. -/
lemma runLoop_card (dl ul : String → Bool) (cs : List String) (st : Finset String) :
    (runLoop dl ul cs st).state.card = st.card + (runLoop dl ul cs st).newCount := by
  induction cs generalizing st with
  | nil => simp [runLoop_nil]
  | cons url rest ih =>
    by_cases hmem : url ∈ st
    · rw [runLoop_cons_mem dl ul url rest st hmem]
      exact ih st
    · cases hok : (dl url && ul url) with
      | true =>
        rw [runLoop_cons_ok dl ul url rest st hmem hok]
        dsimp only
        rw [ih (insert url st), Finset.card_insert_of_not_mem hmem]
        omega
      | false =>
        rw [runLoop_cons_fail dl ul url rest st hmem hok]
        dsimp only
        exact ih st

/-- One delay occurs per successfully archived candidate, and nothing
else causes a delay. -/
lemma runLoop_countSleep (dl ul : String → Bool) (cs : List String) (st : Finset String) :
    countSleep (runLoop dl ul cs st).events = (runLoop dl ul cs st).newCount := by
  induction cs generalizing st with
  | nil => simp [runLoop_nil, countSleep]
  | cons url rest ih =>
    by_cases hmem : url ∈ st
    · rw [runLoop_cons_mem dl ul url rest st hmem]
      exact ih st
    · cases hok : (dl url && ul url) with
      | true =>
        rw [runLoop_cons_ok dl ul url rest st hmem hok]
        dsimp only
        rw [countSleep_append, countSleep_stepEvents, hok, ih (insert url st)]
        simp
      | false =>
        rw [runLoop_cons_fail dl ul url rest st hmem hok]
        dsimp only
        rw [countSleep_append, countSleep_stepEvents, hok, ih st]
        simp

/-- One successful-upload event occurs per increment of `new_count`. -/
lemma runLoop_countUploadOk (dl ul : String → Bool) (cs : List String) (st : Finset String) :
    countUploadOk (runLoop dl ul cs st).events = (runLoop dl ul cs st).newCount := by
  induction cs generalizing st with
  | nil => simp [runLoop_nil, countUploadOk]
  | cons url rest ih =>
    by_cases hmem : url ∈ st
    · rw [runLoop_cons_mem dl ul url rest st hmem]
      exact ih st
    · cases hok : (dl url && ul url) with
      | true =>
        rw [runLoop_cons_ok dl ul url rest st hmem hok]
        dsimp only
        rw [countUploadOk_append, countUploadOk_stepEvents, hok, ih (insert url st)]
        simp
      | false =>
        rw [runLoop_cons_fail dl ul url rest st hmem hok]
        dsimp only
        rw [countUploadOk_append, countUploadOk_stepEvents, hok, ih st]
        simp

/-- A URL that is already in the in-memory set is never attempted. -/
lemma no_attempt_of_mem (dl ul : String → Bool) (cs : List String) (st : Finset String)
    (a : String) (ha : a ∈ st) :
    Event.downloadAttempt a ∉ (runLoop dl ul cs st).events ∧
    Event.uploadAttempt a ∉ (runLoop dl ul cs st).events := by
  induction cs generalizing st with
  | nil => simp [runLoop_nil]
  | cons url rest ih =>
    by_cases hmem : url ∈ st
    · rw [runLoop_cons_mem dl ul url rest st hmem]
      exact ih st ha
    · have hne : a ≠ url := fun h => hmem (h ▸ ha)
      cases hok : (dl url && ul url) with
      | true =>
        rw [runLoop_cons_ok dl ul url rest st hmem hok]
        dsimp only
        have ih2 := ih (insert url st) (Finset.mem_insert_of_mem ha)
        constructor
        · intro hin
          rcases List.mem_append.mp hin with h | h
          · exact hne ((downloadAttempt_mem_stepEvents dl ul url a).mp h)
          · exact ih2.1 h
        · intro hin
          rcases List.mem_append.mp hin with h | h
          · exact hne ((uploadAttempt_mem_stepEvents dl ul url a).mp h).1
          · exact ih2.2 h
      | false =>
        rw [runLoop_cons_fail dl ul url rest st hmem hok]
        dsimp only
        have ih2 := ih st ha
        constructor
        · intro hin
          rcases List.mem_append.mp hin with h | h
          · exact hne ((downloadAttempt_mem_stepEvents dl ul url a).mp h)
          · exact ih2.1 h
        · intro hin
          rcases List.mem_append.mp hin with h | h
          · exact hne ((uploadAttempt_mem_stepEvents dl ul url a).mp h).1
          · exact ih2.2 h

/-- A candidate that always fails and was not already processed has its
error caught and logged. -/
lemma errorLogged_of_failed (dl ul : String → Bool) (a : String)
    (haf : dl a = false ∨ ul a = false) :
    ∀ (cs : List String) (st : Finset String), a ∉ st → a ∈ cs →
      Event.errorLogged a ∈ (runLoop dl ul cs st).events := by
  intro cs
  induction cs with
  | nil => intro st _ h; simp at h
  | cons url rest ih =>
    intro st ha hmem
    by_cases hau : a = url
    · subst hau
      have hok : (dl a && ul a) = false := by
        rcases haf with h | h <;> simp [h]
      rw [runLoop_cons_fail dl ul a rest st ha hok]
      dsimp only
      exact List.mem_append.mpr (Or.inl (errorLogged_mem_stepEvents dl ul a haf))
    · have hrest : a ∈ rest := by
        rcases List.mem_cons.mp hmem with h | h
        · exact absurd h hau
        · exact h
      by_cases hmem2 : url ∈ st
      · rw [runLoop_cons_mem dl ul url rest st hmem2]
        exact ih st ha hrest
      · cases hok : (dl url && ul url) with
        | true =>
          rw [runLoop_cons_ok dl ul url rest st hmem2 hok]
          dsimp only
          refine List.mem_append.mpr (Or.inr ?_)
          exact ih (insert url st) (by simp [Finset.mem_insert, hau, ha]) hrest
        | false =>
          rw [runLoop_cons_fail dl ul url rest st hmem2 hok]
          dsimp only
          exact List.mem_append.mpr (Or.inr (ih st ha hrest))

/-! ### Bridging lemmas for candidate selection -/

/-- The code's extension test agrees with the spec's phrasing of it: the
truthiness guard `href and ...` is redundant because the empty string passes
neither the suffix nor the substring test. -/
lemma is_pdf_link_eq_extPredSpec (u : String) : is_pdf_link u = extPredSpec u := by
  by_cases h : u = ""
  · subst h; decide
  · have hb : (u != "") = true := by simpa using h
    simp [is_pdf_link, extPredSpec, hb]

lemma append_space_ne_empty (t h : String) : t ++ " " ++ h ≠ "" := by
  intro he
  have hl := congrArg String.length he
  have h0 : ("" : String).length = 0 := rfl
  have h1 : (" " : String).length = 1 := rfl
  rw [String.length_append, String.length_append, h0, h1] at hl
  omega

/-- The code's keyword test on `get_text(...) + " " + href` agrees with the
amended claim's predicate; the truthiness guard is redundant because the
argument always contains the inserted space. -/
lemma likely_drhp_text_append_space (t h : String) :
    likely_drhp_text (t ++ " " ++ h) = keywordPredAmended ⟨h, t⟩ := by
  have hb : (t ++ " " ++ h != "") = true := by
    simpa using append_space_ne_empty t h
  simp [likely_drhp_text, keywordPredAmended, hb]

/-- On a successful run (state parses, listing fetch succeeds, credentials
valid), `main` runs the loop over the extracted candidates and saves. -/
lemma mainRun_success (resolve : String → String) (file : FileContent)
    (anchors : List Anchor) (dl ul : String → Bool) (st0 : Finset String)
    (h : load_state file = Except.ok st0) :
    mainRun resolve file true anchors true dl ul =
      ⟨[Event.fetchListing, Event.fetchOk] ++
         (runLoop dl ul (extract_candidates resolve anchors) st0).events,
       save_state (runLoop dl ul (extract_candidates resolve anchors) st0).state,
       (runLoop dl ul (extract_candidates resolve anchors) st0).newCount,
       none⟩ := by
  unfold mainRun
  rw [h]
  rfl

/-! ### Claim theorems -/

/-- Claim C1: per-item failure isolation.  For every candidate list
`pre ++ a :: post` and oracles under which candidate `a`'s download or
upload raises, the exception is caught and logged, `a`'s URL is not added
to the processed set, and processing continues: a later candidate `b` that
succeeds is still added to the set. -/
theorem per_item_failure_isolation (dl ul : String → Bool) (st0 : Finset String)
    (pre post : List String) (a b : String)
    (ha0 : a ∉ st0) (haf : dl a = false ∨ ul a = false)
    (hb : b ∈ post) (hdb : dl b = true) (hub : ul b = true) :
    a ∉ (runLoop dl ul (pre ++ a :: post) st0).state ∧
    Event.errorLogged a ∈ (runLoop dl ul (pre ++ a :: post) st0).events ∧
    b ∈ (runLoop dl ul (pre ++ a :: post) st0).state := by
  refine ⟨?_, ?_, ?_⟩
  · rw [runLoop_state_mem]
    rintro (h | ⟨_, hd, hu⟩)
    · exact ha0 h
    · rcases haf with h | h
      · rw [hd] at h; exact Bool.noConfusion h
      · rw [hu] at h; exact Bool.noConfusion h
  · exact errorLogged_of_failed dl ul a haf _ st0 ha0 (by simp)
  · rw [runLoop_state_mem]
    exact Or.inr ⟨by simp [hb], hdb, hub⟩

/-- Witness for C1: loaded set empty, candidates ["A", "B"], downloading
"A" fails, "B" succeeds; "A" is logged and excluded, "B" is added. -/
theorem per_item_failure_isolation_witness :
    (("A" : String) ∉ (∅ : Finset String) ∧
      (dlFailsA "A" = false ∨ ulAll "A" = false) ∧
      ("B" : String) ∈ ["B"] ∧ dlFailsA "B" = true ∧ ulAll "B" = true) ∧
    (("A" : String) ∉ (runLoop dlFailsA ulAll ([] ++ "A" :: ["B"]) ∅).state ∧
     Event.errorLogged "A" ∈ (runLoop dlFailsA ulAll ([] ++ "A" :: ["B"]) ∅).events ∧
     ("B" : String) ∈ (runLoop dlFailsA ulAll ([] ++ "A" :: ["B"]) ∅).state) := by
  refine ⟨⟨by decide, Or.inl (by decide), by decide, by decide, by decide⟩, ?_⟩
  exact per_item_failure_isolation dlFailsA ulAll ∅ [] ["B"] "A" "B"
    (by decide) (Or.inl (by decide)) (by decide) (by decide) (by decide)

/-- Claim C2 (counterexample): the anchor with visible text "red" and raw
href "herring.pdf" is emitted as a candidate by the code (the code matches
keywords against text + " " + href, giving "red herring.pdf" which contains
the keyword "red herring"), yet the claim's keyword predicate — on the
direct concatenation "redherring.pdf" — holds for no keyword, so the
claimed iff fails at this input. -/
theorem candidate_selection_cex :
    extract_candidates (fun h => "https://www.sebi.gov.in/" ++ h)
        [⟨"herring.pdf", "red"⟩] = ["https://www.sebi.gov.in/herring.pdf"] ∧
    keywordPredClaim ⟨"herring.pdf", "red"⟩ = false := by
  decide

/-- Claim C2 (amended): a hyperlink's resolved URL is included as a
candidate if and only if (a) the resolved URL, lowercased, ends with ".pdf"
or contains ".pdf?", and (b) the concatenation of the link's visible text,
a single space, and its raw href, lowercased, contains at least one keyword
from the fixed list; candidates are emitted in document order. -/
theorem candidate_selection_amended (resolve : String → String) (anchors : List Anchor) :
    extract_candidates resolve anchors = candidates_amendedC2 resolve anchors := by
  induction anchors with
  | nil => rfl
  | cons a rest ih =>
    show List.filterMap _ (a :: rest) = List.filterMap _ (a :: rest)
    rw [List.filterMap_cons, List.filterMap_cons]
    have hhd : (if is_pdf_link (resolve a.href) &&
          likely_drhp_text (a.text ++ " " ++ a.href) then some (resolve a.href) else none) =
        (if extPredSpec (resolve a.href) && keywordPredAmended a then some (resolve a.href)
          else none) := by
      rw [is_pdf_link_eq_extPredSpec, likely_drhp_text_append_space]
    rw [show extract_candidates resolve rest = List.filterMap _ rest from rfl] at ih
    rw [show candidates_amendedC2 resolve rest = List.filterMap _ rest from rfl] at ih
    cases hc : (extPredSpec (resolve a.href) && keywordPredAmended a) with
    | true =>
      rw [hc] at hhd
      simp only [if_pos] at hhd ⊢
      rw [hhd, ih]
    | false =>
      rw [hc] at hhd
      simp only [if_neg] at hhd ⊢
      rw [hhd, ih]

/-- Claim C3: skip behavior.  A URL `a` already in the loaded set is never
download- or upload-attempted in any run from that set, and its membership
is unchanged; concretely, with loaded set containing `a` and candidates
`[a, b]` with `b` new and succeeding, only `b` is downloaded, uploaded and
added, and the new-item count is 1. -/
theorem skip_behavior (dl ul : String → Bool) (cs : List String) (st0 : Finset String)
    (a b : String) (ha : a ∈ st0) (hb : b ∉ st0) (hdb : dl b = true) (hub : ul b = true) :
    (Event.downloadAttempt a ∉ (runLoop dl ul cs st0).events ∧
     Event.uploadAttempt a ∉ (runLoop dl ul cs st0).events ∧
     (a ∈ (runLoop dl ul cs st0).state ↔ a ∈ st0)) ∧
    ((runLoop dl ul [a, b] st0).state = insert b st0 ∧
     (runLoop dl ul [a, b] st0).newCount = 1 ∧
     (runLoop dl ul [a, b] st0).events =
       [Event.downloadAttempt b, Event.downloadOk b,
        Event.uploadAttempt b, Event.uploadOk b, Event.sleep]) := by
  have hok : (dl b && ul b) = true := by simp [hdb, hub]
  have h2 : runLoop dl ul [a, b] st0 =
      ⟨insert b st0, 1, [Event.downloadAttempt b, Event.downloadOk b,
        Event.uploadAttempt b, Event.uploadOk b, Event.sleep]⟩ := by
    rw [runLoop_cons_mem dl ul a [b] st0 ha,
      runLoop_cons_ok dl ul b [] st0 hb hok, runLoop_nil]
    simp [stepEvents, hdb, hub]
  refine ⟨⟨(no_attempt_of_mem dl ul cs st0 a ha).1,
    (no_attempt_of_mem dl ul cs st0 a ha).2,
    iff_of_true (runLoop_subset dl ul cs st0 ha) ha⟩, ?_, ?_, ?_⟩
  · rw [h2]
  · rw [h2]
  · rw [h2]

/-- Witness for C3: loaded set `{"A"}`, candidates `["A", "B"]`, all
operations succeed. -/
theorem skip_behavior_witness :
    (("A" : String) ∈ ({"A"} : Finset String) ∧ ("B" : String) ∉ ({"A"} : Finset String) ∧
      dlAll "B" = true ∧ ulAll "B" = true) ∧
    ((Event.downloadAttempt "A" ∉ (runLoop dlAll ulAll ["A", "B"] {"A"}).events ∧
      Event.uploadAttempt "A" ∉ (runLoop dlAll ulAll ["A", "B"] {"A"}).events ∧
      (("A" : String) ∈ (runLoop dlAll ulAll ["A", "B"] {"A"}).state ↔
        ("A" : String) ∈ ({"A"} : Finset String))) ∧
     ((runLoop dlAll ulAll ["A", "B"] {"A"}).state = insert "B" {"A"} ∧
      (runLoop dlAll ulAll ["A", "B"] {"A"}).newCount = 1 ∧
      (runLoop dlAll ulAll ["A", "B"] {"A"}).events =
        [Event.downloadAttempt "B", Event.downloadOk "B",
         Event.uploadAttempt "B", Event.uploadOk "B", Event.sleep])) := by
  refine ⟨⟨by decide, by decide, by decide, by decide⟩, ?_⟩
  exact skip_behavior dlAll ulAll ["A", "B"] {"A"} "A" "B"
    (by decide) (by decide) (by decide) (by decide)

/-- Claim C4: discovery-failure atomicity.  If the listing fetch fails, the
run aborts with the exception propagated, nothing is downloaded or
uploaded, and the state file is left unchanged. -/
theorem discovery_failure_atomicity (resolve : String → String) (file : FileContent)
    (anchors : List Anchor) (credsOk : Bool) (dl ul : String → Bool)
    (st0 : Finset String) (h : load_state file = Except.ok st0) :
    (mainRun resolve file false anchors credsOk dl ul).aborted =
      some AbortReason.listingFetch ∧
    (mainRun resolve file false anchors credsOk dl ul).file = file ∧
    (mainRun resolve file false anchors credsOk dl ul).events = [Event.fetchListing] ∧
    ∀ u, Event.downloadAttempt u ∉ (mainRun resolve file false anchors credsOk dl ul).events ∧
      Event.uploadAttempt u ∉ (mainRun resolve file false anchors credsOk dl ul).events := by
  unfold mainRun
  rw [h]
  simp

/-- Witness for C4: a loadable state file, failing listing fetch. -/
theorem discovery_failure_atomicity_witness :
    (load_state (FileContent.stored []) = Except.ok (∅ : Finset String)) ∧
    ((mainRun id (FileContent.stored []) false [] true dlAll ulAll).aborted =
       some AbortReason.listingFetch ∧
     (mainRun id (FileContent.stored []) false [] true dlAll ulAll).file =
       FileContent.stored [] ∧
     (mainRun id (FileContent.stored []) false [] true dlAll ulAll).events =
       [Event.fetchListing] ∧
     ∀ u, Event.downloadAttempt u ∉
         (mainRun id (FileContent.stored []) false [] true dlAll ulAll).events ∧
       Event.uploadAttempt u ∉
         (mainRun id (FileContent.stored []) false [] true dlAll ulAll).events) := by
  refine ⟨rfl, ?_⟩
  exact discovery_failure_atomicity id (FileContent.stored []) [] true dlAll ulAll ∅ rfl

/-- Claim C5 (counterexample): with two candidates both already in the
processed set, the run inserts no delay at all, refuting a delay after
every processed candidate (skipped ones included). -/
theorem inter_item_delay_cex :
    ¬ (∀ (dl ul : String → Bool) (cs : List String) (st : Finset String),
        2 ≤ cs.length → Event.sleep ∈ (runLoop dl ul cs st).events) := by
  intro hclaim
  have h := hclaim dlAll ulAll ["a", "b"] {"a", "b"} (by decide)
  exact absurd h (by decide)

/-- Claim C5 (amended): the fixed delay is inserted exactly once per
successfully archived candidate (after its upload), so the number of delays
equals the new-item count; skipped and failed candidates are followed by no
delay. -/
theorem inter_item_delay_amended (dl ul : String → Bool) (cs : List String)
    (st : Finset String) :
    countSleep (runLoop dl ul cs st).events = (runLoop dl ul cs st).newCount :=
  runLoop_countSleep dl ul cs st

/-- Claim C6 (counterexample): with a missing or invalid credential file the
run does abort with a configuration error, but only after the listing page
has been fetched — the fetch-success event is in the trace — refuting
"aborts before the listing page is fetched". -/
theorem config_error_ordering_cex :
    (mainRun id (FileContent.stored []) true [] false dlAll ulAll).aborted =
      some AbortReason.configError ∧
    Event.fetchOk ∈ (mainRun id (FileContent.stored []) true [] false dlAll ulAll).events := by
  decide

/-- Claim C6 (amended): if the credential file is missing or invalid, the
run aborts fatally before any download or upload is attempted and before
the state file is written, but after the listing page has been fetched. -/
theorem config_error_ordering_amended (resolve : String → String) (file : FileContent)
    (anchors : List Anchor) (dl ul : String → Bool) (st0 : Finset String)
    (h : load_state file = Except.ok st0) :
    (mainRun resolve file true anchors false dl ul).aborted =
      some AbortReason.configError ∧
    (mainRun resolve file true anchors false dl ul).file = file ∧
    (mainRun resolve file true anchors false dl ul).events =
      [Event.fetchListing, Event.fetchOk] ∧
    ∀ u, Event.downloadAttempt u ∉ (mainRun resolve file true anchors false dl ul).events ∧
      Event.uploadAttempt u ∉ (mainRun resolve file true anchors false dl ul).events := by
  unfold mainRun
  rw [h]
  simp

/-- Witness for C6 (amended): loadable state file, invalid credentials. -/
theorem config_error_ordering_amended_witness :
    (load_state (FileContent.stored []) = Except.ok (∅ : Finset String)) ∧
    ((mainRun id (FileContent.stored []) true [] false dlAll ulAll).aborted =
       some AbortReason.configError ∧
     (mainRun id (FileContent.stored []) true [] false dlAll ulAll).file =
       FileContent.stored [] ∧
     (mainRun id (FileContent.stored []) true [] false dlAll ulAll).events =
       [Event.fetchListing, Event.fetchOk] ∧
     ∀ u, Event.downloadAttempt u ∉
         (mainRun id (FileContent.stored []) true [] false dlAll ulAll).events ∧
       Event.uploadAttempt u ∉
         (mainRun id (FileContent.stored []) true [] false dlAll ulAll).events) := by
  refine ⟨rfl, ?_⟩
  exact config_error_ordering_amended id (FileContent.stored []) [] dlAll ulAll ∅ rfl

/-- Claim C7: state-load contract.  A missing state file loads as the empty
set without failing, and loading fails (with the parse error propagated)
exactly when the file exists with malformed contents. -/
theorem state_load_contract :
    load_state FileContent.missing = Except.ok (∅ : Finset String) ∧
    ∀ f : FileContent, (∃ e, load_state f = Except.error e) ↔ f = FileContent.corrupt := by
  refine ⟨rfl, ?_⟩
  intro f
  cases f with
  | missing => simp [load_state]
  | corrupt => simp [load_state]
  | stored xs => simp [load_state]

/-- Claim C8: state round-trip.  Any serialization listing exactly the
elements of the set `S` — in whatever order — reloads to a set equal to
`S`; in particular `save_state` followed by `load_state` restores `S`. -/
theorem state_round_trip (S : Finset String) (xs : List String) (h : xs.toFinset = S) :
    load_state (FileContent.stored xs) = Except.ok S ∧
    load_state (save_state S) = Except.ok S := by
  constructor
  · simp [load_state, h]
  · simp [load_state, save_state, Finset.sort_toFinset]

/-- Witness for C8: the set `{"url1", "url2"}` serialized in reversed
order. -/
theorem state_round_trip_witness :
    (["url2", "url1"].toFinset = ({"url1", "url2"} : Finset String)) ∧
    (load_state (FileContent.stored ["url2", "url1"]) =
       Except.ok ({"url1", "url2"} : Finset String) ∧
     load_state (save_state ({"url1", "url2"} : Finset String)) =
       Except.ok ({"url1", "url2"} : Finset String)) := by
  refine ⟨by decide, ?_⟩
  exact state_round_trip {"url1", "url2"} ["url2", "url1"] (by decide)

/-- Claim C9: summary-count correctness.  On a run that reaches FINALIZE,
`new_count` equals the number of successful download-upload pairs (one
successful-upload event each) and equals the size of the saved set minus
the size of the loaded set — duplicates in the candidate list included,
since a URL added once is skipped at its later occurrences. -/
theorem summary_count_correct (resolve : String → String) (file : FileContent)
    (anchors : List Anchor) (dl ul : String → Bool) (st0 : Finset String)
    (h : load_state file = Except.ok st0) :
    (mainRun resolve file true anchors true dl ul).aborted = none ∧
    ∃ xs, (mainRun resolve file true anchors true dl ul).file = FileContent.stored xs ∧
      xs.toFinset.card = st0.card + (mainRun resolve file true anchors true dl ul).newCount ∧
      (mainRun resolve file true anchors true dl ul).newCount =
        countUploadOk (mainRun resolve file true anchors true dl ul).events := by
  rw [mainRun_success resolve file anchors dl ul st0 h]
  refine ⟨rfl,
    ((runLoop dl ul (extract_candidates resolve anchors) st0).state.sort (· ≤ ·)),
    rfl, ?_, ?_⟩
  · rw [Finset.sort_toFinset]
    exact runLoop_card dl ul (extract_candidates resolve anchors) st0
  · rw [countUploadOk_append, runLoop_countUploadOk]
    simp [countUploadOk, isUploadOkEv]

/-- Witness for C9: empty stored state, one anchor that is selected and
archived successfully. -/
theorem summary_count_correct_witness :
    (load_state (FileContent.stored []) = Except.ok (∅ : Finset String)) ∧
    ((mainRun id (FileContent.stored []) true [⟨"drhp.pdf", "x"⟩] true dlAll ulAll).aborted =
       none ∧
     ∃ xs, (mainRun id (FileContent.stored []) true [⟨"drhp.pdf", "x"⟩] true dlAll
         ulAll).file = FileContent.stored xs ∧
       xs.toFinset.card = (∅ : Finset String).card +
         (mainRun id (FileContent.stored []) true [⟨"drhp.pdf", "x"⟩] true dlAll
           ulAll).newCount ∧
       (mainRun id (FileContent.stored []) true [⟨"drhp.pdf", "x"⟩] true dlAll
           ulAll).newCount =
         countUploadOk (mainRun id (FileContent.stored []) true [⟨"drhp.pdf", "x"⟩] true
           dlAll ulAll).events) := by
  refine ⟨rfl, ?_⟩
  exact summary_count_correct id (FileContent.stored []) [⟨"drhp.pdf", "x"⟩] dlAll ulAll ∅ rfl

/-- Claim C10: monotone growth of the processed set.  On a run that reaches
FINALIZE, the persisted set is a superset of the loaded set: no pipeline
operation removes a URL. -/
theorem processed_set_monotone (resolve : String → String) (file : FileContent)
    (anchors : List Anchor) (dl ul : String → Bool) (st0 : Finset String)
    (h : load_state file = Except.ok st0) :
    ∃ xs, (mainRun resolve file true anchors true dl ul).file = FileContent.stored xs ∧
      st0 ⊆ xs.toFinset := by
  rw [mainRun_success resolve file anchors dl ul st0 h]
  refine ⟨((runLoop dl ul (extract_candidates resolve anchors) st0).state.sort (· ≤ ·)),
    rfl, ?_⟩
  rw [Finset.sort_toFinset]
  exact runLoop_subset dl ul (extract_candidates resolve anchors) st0

/-- Witness for C10: empty stored state, one successfully archived
candidate. -/
theorem processed_set_monotone_witness :
    (load_state (FileContent.stored ["a"]) = Except.ok ({"a"} : Finset String)) ∧
    ∃ xs, (mainRun id (FileContent.stored ["a"]) true [] true dlAll ulAll).file =
        FileContent.stored xs ∧
      ({"a"} : Finset String) ⊆ xs.toFinset := by
  refine ⟨rfl, ?_⟩
  exact processed_set_monotone id (FileContent.stored ["a"]) [] dlAll ulAll {"a"} rfl

end DrhpDownloader

